import Mathlib

/-!
Verification of the transcript-conversion, dataset-split and upload logic of
`recipes/supervised_fine_tuning/metrics/google-vertex/google_vertex.ipynb`.

The notebook's converter cells are shallowly embedded below: Python values
become Lean inductive types, the per-record conversion functions become total
Lean functions whose `Except` layer models uncaught Python exceptions and whose
`Option` layer models the "return None = skip this record" path, and the
in-place list mutation of `merge_messages` is additionally modelled by an
explicit heap of parts-lists to reason about aliasing.
-/

/-- A JSON value, as produced by Python's `json.loads` and carried in
`ToolCall.raw_arguments` / `ToolResult.result`. Objects are association
lists in key order. -/
inductive Js where
  | str : String → Js
  | num : Int → Js
  | bool : Bool → Js
  | null : Js
  | arr : List Js → Js
  | obj : List (String × Js) → Js

/-- The field `ToolCall.raw_arguments` "might already be a dict or JSON string"
(comment in `render_chat_message`). -/
inductive RawArgs where
  | argStr : String → RawArgs
  | argMap : Js → RawArgs

/-- The content-block variants dispatched on by `render_chat_message`:
`Text`, `RawText`, `Thought`, `ToolCall`, `ToolResult`. -/
inductive ContentBlock where
  | text : String → ContentBlock
  | rawText : String → ContentBlock
  | thought : String → ContentBlock
  | toolCall : (name : String) → (raw_arguments : RawArgs) → ContentBlock
  | toolResult : (name : String) → (result : Js) → ContentBlock

/-- One Google "part": `{"text": ...}`, `{"functionCall": {"name","args"}}`
or `{"functionResponse": {"name","response"}}`. -/
inductive ProviderPart where
  | text : String → ProviderPart
  | functionCall : (name : String) → (args : Js) → ProviderPart
  | functionResponse : (name : String) → (response : Js) → ProviderPart

/-- One Google turn `{"role": ..., "parts": [...]}`. -/
structure Turn where
  role : String
  parts : List ProviderPart

/-- The notebook's `role_map` dict; `none` models a `KeyError` on lookup. -/
def role_map : String → Option String := fun r =>
  if r = "user" then some "user"
  else if r = "assistant" then some "model"
  else if r = "system" then some "system"
  else none

/-- One iteration of the loop in `merge_messages`: if the last merged turn has
the same role, extend its parts with the new turn's parts, else append a fresh
turn built from a copy of the parts list. -/
def mergeFold (merged : List Turn) (msg : Turn) : List Turn :=
  match merged.getLast? with
  | some last =>
      if last.role = msg.role then
        merged.dropLast ++ [⟨last.role, last.parts ++ msg.parts⟩]
      else
        merged ++ [msg]
  | none => [msg]

/-- Embedding of `merge_messages`: merge consecutive messages with the same role into a
single message (value-level meaning of the notebook function). -/
def merge_messages (messages : List Turn) : List Turn :=
  messages.foldl mergeFold []

example : merge_messages
    [⟨"model", [ProviderPart.text "A"]⟩, ⟨"model", [ProviderPart.text "B"]⟩]
    = [⟨"model", [ProviderPart.text "A", ProviderPart.text "B"]⟩] := rfl

example : merge_messages
    [⟨"user", [ProviderPart.text "A"]⟩, ⟨"model", [ProviderPart.text "B"]⟩]
    = [⟨"user", [ProviderPart.text "A"]⟩, ⟨"model", [ProviderPart.text "B"]⟩] := rfl

/-- The Python exceptions that can escape the conversion cells uncaught:
`json.JSONDecodeError` from `json.loads` on malformed tool-call arguments,
and `KeyError` from `role_map[role]` on an unmapped role. -/
inductive ConvError where
  | jsonDecodeError : ConvError
  | keyError : ConvError
deriving DecidableEq, Repr

/-- The block loop of `render_chat_message`: renders the blocks of one message
into parts. `Except.error` models an uncaught exception, `Except.ok none`
models the `return None` skip taken at the first unsupported block (later
blocks are then never examined, as in the Python early return). `loads`
stands for `json.loads`, with `none` modelling a raised `JSONDecodeError`. -/
def renderBlocks (loads : String → Option Js) (role : String) :
    List ContentBlock → Except ConvError (Option (List ProviderPart))
  | [] => .ok (some [])
  | .text s :: rest =>
      match renderBlocks loads role rest with
      | .error e => .error e
      | .ok none => .ok none
      | .ok (some ps) => .ok (some (ProviderPart.text s :: ps))
  | .rawText v :: rest =>
      match renderBlocks loads role rest with
      | .error e => .error e
      | .ok none => .ok none
      | .ok (some ps) => .ok (some (ProviderPart.text v :: ps))
  | .thought s :: rest =>
      match renderBlocks loads role rest with
      | .error e => .error e
      | .ok none => .ok none
      | .ok (some ps) => .ok (some (ProviderPart.text ("<think>" ++ s ++ "</think>") :: ps))
  | .toolCall name args :: rest =>
      if role = "assistant" then
        match args with
        | .argStr s =>
            match loads s with
            | none => .error .jsonDecodeError
            | some j =>
                match renderBlocks loads role rest with
                | .error e => .error e
                | .ok none => .ok none
                | .ok (some ps) => .ok (some (ProviderPart.functionCall name j :: ps))
        | .argMap j =>
            match renderBlocks loads role rest with
            | .error e => .error e
            | .ok none => .ok none
            | .ok (some ps) => .ok (some (ProviderPart.functionCall name j :: ps))
      else .ok none
  | .toolResult name result :: rest =>
      if role = "user" then
        match renderBlocks loads role rest with
        | .error e => .error e
        | .ok none => .ok none
        | .ok (some ps) => .ok (some (ProviderPart.functionResponse name (Js.obj [("result", result)]) :: ps))
      else .ok none

/-- Embedding of `render_chat_message`: render a single chat message into Google parts
format. After the block loop, builds `{"role": role_map[role], "parts": parts}`;
the dict lookup `role_map[role]` raises `KeyError` on an unmapped role. -/
def render_chat_message (loads : String → Option Js) (role : String)
    (content_blocks : List ContentBlock) : Except ConvError (Option Turn) :=
  match renderBlocks loads role content_blocks with
  | .error e => .error e
  | .ok none => .ok none
  | .ok (some parts) =>
      match role_map role with
      | some r => .ok (some ⟨r, parts⟩)
      | none => .error .keyError

/-- A stored message `{role, content}` as consumed by `inference_to_google`. -/
structure Message where
  role : String
  content : List ContentBlock

/-- One rendered inference as consumed by `inference_to_google`:
`inf.input.system`, `inf.input.messages`, `inf.output`, `inf.episode_id`.
`system = none` models Python `None`; `some ""` is falsy too. -/
structure InferenceRecord where
  episode_id : String
  system : Option String
  messages : List Message
  output : List ContentBlock

/-- Python truthiness of `model_input.system` (`None` and `""` are falsy). -/
def truthyStr : Option String → Bool
  | some s => s ≠ ""
  | none => false

/-- The output-block loop of `inference_to_google` (step 3): same logic as
`render_chat_message` but only `Text`, `Thought` and `ToolCall` are handled;
any other block (including `RawText` and `ToolResult`) warns and skips. -/
def renderOutputBlocks (loads : String → Option Js) :
    List ContentBlock → Except ConvError (Option (List ProviderPart))
  | [] => .ok (some [])
  | .text s :: rest =>
      match renderOutputBlocks loads rest with
      | .error e => .error e
      | .ok none => .ok none
      | .ok (some ps) => .ok (some (ProviderPart.text s :: ps))
  | .thought s :: rest =>
      match renderOutputBlocks loads rest with
      | .error e => .error e
      | .ok none => .ok none
      | .ok (some ps) => .ok (some (ProviderPart.text ("<think>" ++ s ++ "</think>") :: ps))
  | .toolCall name args :: rest =>
      (match args with
      | .argStr s =>
          match loads s with
          | none => .error .jsonDecodeError
          | some j =>
              match renderOutputBlocks loads rest with
              | .error e => .error e
              | .ok none => .ok none
              | .ok (some ps) => .ok (some (ProviderPart.functionCall name j :: ps))
      | .argMap j =>
          match renderOutputBlocks loads rest with
          | .error e => .error e
          | .ok none => .ok none
          | .ok (some ps) => .ok (some (ProviderPart.functionCall name j :: ps)))
  | _ :: _ => .ok none

/-- The message loop of `inference_to_google` (step 2): renders every input
message; the first `None` makes the whole record return `None` (the remaining
messages are never rendered, as in the Python early return). -/
def renderMessages (loads : String → Option Js) :
    List Message → Except ConvError (Option (List Turn))
  | [] => .ok (some [])
  | m :: rest =>
      match render_chat_message loads m.role m.content with
      | .error e => .error e
      | .ok none => .ok none
      | .ok (some t) =>
          match renderMessages loads rest with
          | .error e => .error e
          | .ok none => .ok none
          | .ok (some ts) => .ok (some (t :: ts))

/-- The turn list of `inference_to_google` as it stands just before step 4
(`merge_messages`): all rendered input messages followed by the assistant's
output turn `{"role": role_map["assistant"], "parts": out_parts}`. -/
def inference_pre_merge (loads : String → Option Js) (inf : InferenceRecord) :
    Except ConvError (Option (List Turn)) :=
  match renderMessages loads inf.messages with
  | .error e => .error e
  | .ok none => .ok none
  | .ok (some ts) =>
      match renderOutputBlocks loads inf.output with
      | .error e => .error e
      | .ok none => .ok none
      | .ok (some ps) => .ok (some (ts ++ [⟨"model", ps⟩]))

/-- The converted payload: `{"google_messages": {"contents", "systemInstruction"?},
"episode_id"}`. -/
structure ConvertedExample where
  contents : List Turn
  systemInstruction : Option Turn
  episode_id : String

/-- Embedding of `inference_to_google`: convert a single rendered inference into the Google
Vertex format. `systemInstruction` is built iff `model_input.system` is truthy;
the rendered turns are merged with `merge_messages`. -/
def inference_to_google (loads : String → Option Js) (inf : InferenceRecord) :
    Except ConvError (Option ConvertedExample) :=
  let system_instruction : Option Turn :=
    if truthyStr inf.system then
      some ⟨"system", [ProviderPart.text (inf.system.getD "")]⟩
    else none
  match inference_pre_merge loads inf with
  | .error e => .error e
  | .ok none => .ok none
  | .ok (some msgs) =>
      .ok (some ⟨merge_messages msgs, system_instruction, inf.episode_id⟩)

/-- The `google_payloads` batch loop: convert every rendered inference,
keeping the non-`None` payloads; an uncaught exception from any record
aborts the whole loop. -/
def google_payloads (loads : String → Option Js) :
    List InferenceRecord → Except ConvError (List ConvertedExample)
  | [] => .ok []
  | inf :: rest =>
      match inference_to_google loads inf with
      | .error e => .error e
      | .ok none => google_payloads loads rest
      | .ok (some p) =>
          match google_payloads loads rest with
          | .error e => .error e
          | .ok ps => .ok (p :: ps)

/-- Embedding of `df["episode_id"].unique()`: the distinct values in order of first
occurrence. -/
def uniqueFirst : List String → List String
  | [] => []
  | x :: xs => x :: uniqueFirst (xs.filter (fun y => y != x))
termination_by l => l.length
decreasing_by
  simp only [List.length_cons]
  exact Nat.lt_succ_of_le (List.length_filter_le _ _)

/-- Python `int()` applied to a rational: truncation toward zero
(`int(len(unique_episode_ids) * (1 - VAL_FRACTION))`). -/
def pyInt (q : ℚ) : Int :=
  Int.sign q.num * (q.num.natAbs / q.den : Nat)

/-- The variable `unique_episode_ids` after the in-place shuffle: the distinct episode ids
(`df["episode_id"].unique()`) permuted by `np.random.shuffle`, which is
abstracted as a `shuffle` function (the claims quantify over all seeds, i.e.
over all permutations). -/
def unique_episode_ids (shuffle : List String → List String)
    (examples : List ConvertedExample) : List String :=
  shuffle (uniqueFirst (examples.map (·.episode_id)))

/-- The variable `split_index = int(len(unique_episode_ids) * (1 - VAL_FRACTION))`. -/
def split_index (shuffle : List String → List String) (val_fraction : ℚ)
    (examples : List ConvertedExample) : Nat :=
  (pyInt (((unique_episode_ids shuffle examples).length : ℚ) * (1 - val_fraction))).toNat

/-- The variable `train_episode_ids = unique_episode_ids[:split_index]`. -/
def train_episode_ids (shuffle : List String → List String) (val_fraction : ℚ)
    (examples : List ConvertedExample) : List String :=
  (unique_episode_ids shuffle examples).take (split_index shuffle val_fraction examples)

/-- The variable `val_episode_ids = unique_episode_ids[split_index:]`. -/
def val_episode_ids (shuffle : List String → List String) (val_fraction : ℚ)
    (examples : List ConvertedExample) : List String :=
  (unique_episode_ids shuffle examples).drop (split_index shuffle val_fraction examples)

/-- The variable `train_df = df[df["episode_id"].isin(train_episode_ids)]`. -/
def train_df (shuffle : List String → List String) (val_fraction : ℚ)
    (examples : List ConvertedExample) : List ConvertedExample :=
  examples.filter
    (fun e => decide (e.episode_id ∈ train_episode_ids shuffle val_fraction examples))

/-- The variable `val_df = df[df["episode_id"].isin(val_episode_ids)]`. -/
def val_df (shuffle : List String → List String) (val_fraction : ℚ)
    (examples : List ConvertedExample) : List ConvertedExample :=
  examples.filter
    (fun e => decide (e.episode_id ∈ val_episode_ids shuffle val_fraction examples))

/-- The whole split cell: `(train_df, val_df)`. -/
def split (shuffle : List String → List String) (val_fraction : ℚ)
    (examples : List ConvertedExample) :
    List ConvertedExample × List ConvertedExample :=
  (train_df shuffle val_fraction examples, val_df shuffle val_fraction examples)

/-- The errors the upload can surface: a failed `if_generation_match = 0`
precondition (the destination object already exists) and a transport
failure. -/
inductive UploadError where
  | preconditionFailed : UploadError
  | transportError : UploadError
deriving DecidableEq, Repr

/-- Modelled from the spec: the external object-storage upload primitive
(`blob.upload_from_filename` with `if_generation_match = 0`; the client
library's request logic is not part of this repository). The object store is
an association list from blob name to content; `transportOk` is the
environment's transport behaviour for this single attempt. The primitive
fails with `transportError` when the transport fails, fails with
`preconditionFailed` when the destination object already exists (a fresh
upload, never an overwrite), and otherwise stores the content; it performs
no retry. -/
def uploadIfAbsent (transportOk : Bool)
    (gcs : List (String × List ConvertedExample))
    (name : String) (content : List ConvertedExample) :
    Except UploadError (List (String × List ConvertedExample)) :=
  if transportOk then
    if (gcs.lookup name).isSome then .error .preconditionFailed
    else .ok ((name, content) :: gcs)
  else .error .transportError

/-- Embedding of `upload_dataset_to_gcp`: writes the `google_messages` column of `df` to a
temporary line-delimited JSON file and uploads it under `dataset_name` with
`generation_match_precondition = 0`. The Python function is annotated
`-> str` but contains no `return` statement, so on success it returns `None`:
the `Option String` component of the result is that return value. -/
def upload_dataset_to_gcp (transportOk : Bool)
    (gcs : List (String × List ConvertedExample))
    (df : List ConvertedExample) (dataset_name : String) :
    Except UploadError ((List (String × List ConvertedExample)) × Option String) :=
  match uploadIfAbsent transportOk gcs dataset_name df with
  | .error e => .error e
  | .ok gcs2 => .ok (gcs2, none)

/-! ### Heap-level model of `merge_messages`

`merge_messages` mutates Python lists in place (`merged[-1]["parts"].extend(parts)`)
and copies with `list(parts)`. To reason about what it mutates, the parts
lists are modelled in an explicit heap: a turn holds a reference (index) to
the heap cell containing its parts list. -/

/-- The heap of Python list objects holding parts. -/
abbrev PartsHeap := List (List ProviderPart)

/-- A turn whose `"parts"` entry is a reference to a heap cell. -/
structure TurnRef where
  role : String
  partsRef : Nat

/-- Read a heap cell (a dangling reference reads as `[]`, matching
`msg.get("parts", [])`). -/
def heapRead (h : PartsHeap) (r : Nat) : List ProviderPart :=
  h.getD r []

/-- One iteration of the `merge_messages` loop at the heap level: on a role
match, `merged[-1]["parts"].extend(parts)` mutates the cell referenced by the
last merged turn in place; otherwise `list(parts)` allocates a fresh cell (at
the end of the heap) holding a copy, and the new turn references it. -/
def mergeStepRef (st : PartsHeap × List TurnRef) (msg : TurnRef) :
    PartsHeap × List TurnRef :=
  match st.2.getLast? with
  | some last =>
      if last.role = msg.role then
        (st.1.set last.partsRef (heapRead st.1 last.partsRef ++ heapRead st.1 msg.partsRef),
         st.2)
      else
        (st.1 ++ [heapRead st.1 msg.partsRef], st.2 ++ [⟨msg.role, st.1.length⟩])
  | none => (st.1 ++ [heapRead st.1 msg.partsRef], st.2 ++ [⟨msg.role, st.1.length⟩])

/-- Embedding of `merge_messages` at the heap level: fold the loop body over the input
turns, starting from the input heap and `merged = []`. Returns the final heap
and the merged turn references. -/
def merge_messages_ref (h : PartsHeap) (messages : List TurnRef) :
    PartsHeap × List TurnRef :=
  messages.foldl mergeStepRef (h, [])

/-- A concrete stand-in for `json.loads` used in witnesses: parses exactly
the two-entry grammar needed by the examples. -/
def loadsDemo : String → Option Js := fun s =>
  if s = "\x7b\"x\": 1\x7d" then some (Js.obj [("x", Js.num 1)]) else none

/-! ### Merge lemmas (claim C7) -/

/-- No two adjacent turns of the list share a role. -/
def NoAdjSameRole (l : List Turn) : Prop :=
  List.Chain' (fun a b => a.role ≠ b.role) l

theorem mergeFold_of_getLast?_none {merged : List Turn} {msg : Turn}
    (h : merged.getLast? = none) : mergeFold merged msg = [msg] := by
  simp [mergeFold, h]

theorem mergeFold_of_same_role {merged : List Turn} {msg last : Turn}
    (h : merged.getLast? = some last) (hr : last.role = msg.role) :
    mergeFold merged msg = merged.dropLast ++ [⟨last.role, last.parts ++ msg.parts⟩] := by
  simp [mergeFold, h, hr]

theorem mergeFold_of_diff_role {merged : List Turn} {msg last : Turn}
    (h : merged.getLast? = some last) (hr : ¬last.role = msg.role) :
    mergeFold merged msg = merged ++ [msg] := by
  simp [mergeFold, h, hr]

theorem mergeFold_noAdj {merged : List Turn} {msg : Turn}
    (h : NoAdjSameRole merged) : NoAdjSameRole (mergeFold merged msg) := by
  unfold NoAdjSameRole
  cases hl : merged.getLast? with
  | none => rw [mergeFold_of_getLast?_none hl]; exact List.chain'_singleton msg
  | some last =>
    by_cases hr : last.role = msg.role
    · rw [mergeFold_of_same_role hl hr]
      have hsplit : merged.dropLast ++ [last] = merged :=
        List.dropLast_append_getLast? last hl
      have h' : List.Chain' (fun a b : Turn => a.role ≠ b.role)
          (merged.dropLast ++ [last]) := by rw [hsplit]; exact h
      rcases List.chain'_append.1 h' with ⟨h1, -, h3⟩
      refine List.chain'_append.2 ⟨h1, List.chain'_singleton _, ?_⟩
      intro x hx y hy
      cases hy
      exact h3 x hx last rfl
    · rw [mergeFold_of_diff_role hl hr]
      refine List.chain'_append.2 ⟨h, List.chain'_singleton _, ?_⟩
      intro x hx y hy
      cases hy
      rw [hl] at hx
      cases hx
      exact hr

theorem foldl_mergeFold_noAdj (l : List Turn) :
    ∀ acc, NoAdjSameRole acc → NoAdjSameRole (List.foldl mergeFold acc l) := by
  induction l with
  | nil => intro acc h; simpa using h
  | cons x xs ih => intro acc h; exact ih _ (mergeFold_noAdj h)

theorem foldl_mergeFold_of_noAdj (l : List Turn) :
    ∀ acc, NoAdjSameRole (acc ++ l) → List.foldl mergeFold acc l = acc ++ l := by
  induction l with
  | nil => intro acc _; simp
  | cons x xs ih =>
    intro acc h
    have hfold : mergeFold acc x = acc ++ [x] := by
      cases hl : acc.getLast? with
      | none =>
        have hnil : acc = [] := List.getLast?_eq_none_iff.1 hl
        subst hnil
        simpa using mergeFold_of_getLast?_none hl
      | some last =>
        have hb : ¬last.role = x.role := by
          have hbd := (List.chain'_append.1 h).2.2
          exact hbd last hl x rfl
        exact mergeFold_of_diff_role hl hb
    rw [List.foldl_cons, hfold]
    have h' : NoAdjSameRole ((acc ++ [x]) ++ xs) := by
      rw [List.append_assoc, List.singleton_append]
      exact h
    rw [ih _ h', List.append_assoc, List.singleton_append]

/-- Claim C7: The merge step is idempotent: applying the adjacent-same-role
merge (role identity is the merge key, parts lists concatenate in encounter
order) twice yields the same result as applying it once. -/
theorem merge_messages_idempotent (turns : List Turn) :
    merge_messages (merge_messages turns) = merge_messages turns := by
  have hok : NoAdjSameRole (merge_messages turns) :=
    foldl_mergeFold_noAdj turns [] List.chain'_nil
  have hid := foldl_mergeFold_of_noAdj (merge_messages turns) []
    (by simpa using hok)
  simpa [merge_messages] using hid

/-! ### Frame lemmas for the heap-level merge (claim C10) -/

theorem take_set_of_le {α : Type} (a : α) {n m : Nat} (l : List α) (h : m ≤ n) :
    (l.set n a).take m = l.take m :=
  List.ext_getElem? fun i => by
    rw [List.getElem?_take, List.getElem?_take]
    split
    · next h' => rw [List.getElem?_set_ne (by omega)]
    · rfl

theorem merge_ref_invariant (msgs : List TurnRef) :
    ∀ (h : PartsHeap) (merged : List TurnRef) (n0 : Nat),
      n0 ≤ h.length →
      (∀ t ∈ merged, n0 ≤ t.partsRef ∧ t.partsRef < h.length) →
      (List.foldl mergeStepRef (h, merged) msgs).1.take n0 = h.take n0
      ∧ h.length ≤ (List.foldl mergeStepRef (h, merged) msgs).1.length
      ∧ ∀ t ∈ (List.foldl mergeStepRef (h, merged) msgs).2,
          n0 ≤ t.partsRef
          ∧ t.partsRef < (List.foldl mergeStepRef (h, merged) msgs).1.length := by
  induction msgs with
  | nil =>
    intro h merged n0 hn hm
    exact ⟨rfl, Nat.le_refl _, hm⟩
  | cons x xs ih =>
    intro h merged n0 hn hm
    rw [List.foldl_cons]
    cases hl : merged.getLast? with
    | none =>
      have hstep : mergeStepRef (h, merged) x =
          (h ++ [heapRead h x.partsRef], merged ++ [⟨x.role, h.length⟩]) := by
        simp [mergeStepRef, hl]
      rw [hstep]
      have hlen : (h ++ [heapRead h x.partsRef]).length = h.length + 1 := by
        simp
      obtain ⟨h1, h2, h3⟩ := ih (h ++ [heapRead h x.partsRef])
        (merged ++ [⟨x.role, h.length⟩]) n0
        (by omega)
        (by
          intro t ht
          rcases List.mem_append.1 ht with ht | ht
          · have := hm t ht; omega
          · rcases List.mem_singleton.1 ht with rfl
            simp only
            omega)
      refine ⟨?_, by omega, h3⟩
      rw [h1, List.take_append_of_le_length hn]
    | some last =>
      by_cases hr : last.role = x.role
      · have hstep : mergeStepRef (h, merged) x =
            (h.set last.partsRef
              (heapRead h last.partsRef ++ heapRead h x.partsRef), merged) := by
          simp [mergeStepRef, hl, hr]
        rw [hstep]
        have hlast := hm last (List.mem_of_getLast?_eq_some hl)
        have hlen : (h.set last.partsRef
            (heapRead h last.partsRef ++ heapRead h x.partsRef)).length = h.length := by
          simp
        obtain ⟨h1, h2, h3⟩ := ih (h.set last.partsRef
            (heapRead h last.partsRef ++ heapRead h x.partsRef)) merged n0 (by omega)
          (by intro t ht; have := hm t ht; omega)
        refine ⟨?_, by omega, h3⟩
        rw [h1, take_set_of_le _ _ hlast.1]
      · have hstep : mergeStepRef (h, merged) x =
            (h ++ [heapRead h x.partsRef], merged ++ [⟨x.role, h.length⟩]) := by
          simp [mergeStepRef, hl, hr]
        rw [hstep]
        have hlen : (h ++ [heapRead h x.partsRef]).length = h.length + 1 := by
          simp
        obtain ⟨h1, h2, h3⟩ := ih (h ++ [heapRead h x.partsRef])
          (merged ++ [⟨x.role, h.length⟩]) n0
          (by omega)
          (by
            intro t ht
            rcases List.mem_append.1 ht with ht | ht
            · have := hm t ht; omega
            · rcases List.mem_singleton.1 ht with rfl
              simp only
              omega)
        refine ⟨?_, by omega, h3⟩
        rw [h1, List.take_append_of_le_length hn]

/-- Claim C10: `merge_messages` never mutates its input: every heap cell that
existed before the call — in particular the parts list of every input turn —
is unchanged after the call, and every merged turn references a freshly
allocated cell (a copy), so all `extend`s go into the copies. -/
theorem merge_messages_ref_no_mutation (h : PartsHeap) (msgs : List TurnRef) :
    (merge_messages_ref h msgs).1.take h.length = h
    ∧ ∀ t ∈ (merge_messages_ref h msgs).2, h.length ≤ t.partsRef := by
  obtain ⟨h1, _, h3⟩ := merge_ref_invariant msgs h [] h.length
    (Nat.le_refl _) (by simp)
  constructor
  · rw [merge_messages_ref, h1, List.take_length]
  · intro t ht
    exact (h3 t ht).1

/-- Witness for C10 at a concrete heap and turn list: the two input turns both
alias cell 0; after the merge the original cell is unchanged and the merged
turn references a fresh cell. -/
theorem merge_messages_ref_no_mutation_witness :
    (merge_messages_ref [[ProviderPart.text "A"]]
        [⟨"user", 0⟩, ⟨"user", 0⟩]).1.take 1 = [[ProviderPart.text "A"]]
    ∧ ∀ t ∈ (merge_messages_ref [[ProviderPart.text "A"]]
        [⟨"user", 0⟩, ⟨"user", 0⟩]).2, 1 ≤ t.partsRef :=
  merge_messages_ref_no_mutation [[ProviderPart.text "A"]] [⟨"user", 0⟩, ⟨"user", 0⟩]

/-! ### Split lemmas (claims C5, C2) -/

theorem mem_uniqueFirst (l : List String) (x : String) :
    x ∈ uniqueFirst l ↔ x ∈ l := by
  induction l using uniqueFirst.induct with
  | case1 => simp [uniqueFirst]
  | case2 y ys ih =>
    rw [uniqueFirst]
    simp only [List.mem_cons, ih, List.mem_filter, bne_iff_ne, ne_eq]
    constructor
    · rintro (rfl | ⟨hy, _⟩)
      · exact Or.inl rfl
      · exact Or.inr hy
    · rintro (rfl | hy)
      · exact Or.inl rfl
      · by_cases hx : x = y
        · exact Or.inl hx
        · exact Or.inr ⟨hy, hx⟩

theorem nodup_uniqueFirst (l : List String) : (uniqueFirst l).Nodup := by
  induction l using uniqueFirst.induct with
  | case1 => simp [uniqueFirst]
  | case2 y ys ih =>
    rw [uniqueFirst]
    refine List.nodup_cons.2 ⟨?_, ih⟩
    intro hmem
    rw [mem_uniqueFirst] at hmem
    simp [List.mem_filter] at hmem

/-- Claim C5: For every example list, every validation fraction and every
permutation of the distinct episode ids (i.e. every shuffle seed), `split`
puts each example into exactly one of train and validation, and the episode
ids of the train partition are disjoint from those of the validation
partition. -/
theorem split_partitions (shuffle : List String → List String)
    (val_fraction : ℚ) (examples : List ConvertedExample)
    (hperm : (shuffle (uniqueFirst (examples.map (·.episode_id)))).Perm
      (uniqueFirst (examples.map (·.episode_id)))) :
    (∀ e ∈ examples,
        (e ∈ (split shuffle val_fraction examples).1
          ∧ e ∉ (split shuffle val_fraction examples).2)
      ∨ (e ∈ (split shuffle val_fraction examples).2
          ∧ e ∉ (split shuffle val_fraction examples).1))
    ∧ ∀ e1 ∈ (split shuffle val_fraction examples).1,
        ∀ e2 ∈ (split shuffle val_fraction examples).2,
          e1.episode_id ≠ e2.episode_id := by
  have hnodup : (unique_episode_ids shuffle examples).Nodup :=
    (hperm.symm.nodup (nodup_uniqueFirst _))
  have hdisj : List.Disjoint (train_episode_ids shuffle val_fraction examples)
      (val_episode_ids shuffle val_fraction examples) :=
    List.disjoint_take_drop hnodup (Nat.le_refl _)
  have htrain : ∀ e, e ∈ (split shuffle val_fraction examples).1 ↔
      e ∈ examples ∧ e.episode_id ∈ train_episode_ids shuffle val_fraction examples := by
    intro e
    simp [split, train_df, List.mem_filter]
  have hval : ∀ e, e ∈ (split shuffle val_fraction examples).2 ↔
      e ∈ examples ∧ e.episode_id ∈ val_episode_ids shuffle val_fraction examples := by
    intro e
    simp [split, val_df, List.mem_filter]
  constructor
  · intro e he
    have hid : e.episode_id ∈ unique_episode_ids shuffle examples := by
      rw [unique_episode_ids, hperm.mem_iff, mem_uniqueFirst]
      exact List.mem_map_of_mem _ he
    have hsplit : e.episode_id ∈ train_episode_ids shuffle val_fraction examples
        ∨ e.episode_id ∈ val_episode_ids shuffle val_fraction examples := by
      rw [train_episode_ids, val_episode_ids]
      rw [← List.take_append_drop (split_index shuffle val_fraction examples)
        (unique_episode_ids shuffle examples)] at hid
      exact List.mem_append.1 hid
    rcases hsplit with hs | hs
    · refine Or.inl ⟨(htrain e).2 ⟨he, hs⟩, ?_⟩
      intro hmem
      exact hdisj hs ((hval e).1 hmem).2
    · refine Or.inr ⟨(hval e).2 ⟨he, hs⟩, ?_⟩
      intro hmem
      exact hdisj ((htrain e).1 hmem).2 hs
  · intro e1 h1 e2 h2 heq
    have m1 := ((htrain e1).1 h1).2
    have m2 := ((hval e2).1 h2).2
    rw [heq] at m1
    exact hdisj m1 m2

/-- Python `int()` of a rational in `[0, 1)` is `0`. -/
theorem pyInt_eq_zero {q : ℚ} (h0 : 0 ≤ q) (h1 : q < 1) : pyInt q = 0 := by
  have hnum : 0 ≤ q.num := Rat.num_nonneg.2 h0
  have hlt : q.num < (q.den : Int) := Rat.lt_one_iff_num_lt_denom.1 h1
  have habs : q.num.natAbs < q.den := by
    omega
  rw [pyInt, Nat.div_eq_of_lt habs]
  simp

/-- A nonempty list whose entries all equal `x` has `uniqueFirst` `[x]`. -/
theorem uniqueFirst_const {l : List String} {x : String} (hne : l ≠ [])
    (hall : ∀ y ∈ l, y = x) : uniqueFirst l = [x] := by
  cases l with
  | nil => exact absurd rfl hne
  | cons z zs =>
    have hz : z = x := hall z (List.mem_cons_self z zs)
    subst hz
    rw [uniqueFirst]
    have hfil : zs.filter (fun y => y != z) = [] := by
      rw [List.filter_eq_nil_iff]
      intro a ha
      have := hall a (List.mem_cons_of_mem z ha)
      simp [this]
    rw [hfil, uniqueFirst]

/-- Two demo converted examples with distinct episode ids. -/
def exA : ConvertedExample :=
  ⟨[⟨"user", [ProviderPart.text "A"]⟩], none, "ep-a"⟩

def exB : ConvertedExample :=
  ⟨[⟨"user", [ProviderPart.text "B"]⟩], none, "ep-b"⟩

/-- Demo example used for the degenerate-split input. -/
def exC : ConvertedExample :=
  ⟨[⟨"user", [ProviderPart.text "C"]⟩], none, "ep-c"⟩

/-- Demo example used for the degenerate-split witness. -/
def exD : ConvertedExample :=
  ⟨[⟨"user", [ProviderPart.text "D"]⟩], none, "ep-d"⟩

/-- Witness for C5: two examples in two episodes, identity shuffle,
`VAL_FRACTION = 1/2`. -/
theorem split_partitions_witness :
    (id (uniqueFirst ([exA, exB].map (·.episode_id)))).Perm
      (uniqueFirst ([exA, exB].map (·.episode_id)))
    ∧ ((∀ e ∈ [exA, exB],
        (e ∈ (split id (1/2) [exA, exB]).1 ∧ e ∉ (split id (1/2) [exA, exB]).2)
      ∨ (e ∈ (split id (1/2) [exA, exB]).2 ∧ e ∉ (split id (1/2) [exA, exB]).1))
    ∧ ∀ e1 ∈ (split id (1/2) [exA, exB]).1,
        ∀ e2 ∈ (split id (1/2) [exA, exB]).2,
          e1.episode_id ≠ e2.episode_id) :=
  ⟨List.Perm.refl _, split_partitions id (1/2) [exA, exB] (List.Perm.refl _)⟩

/-- Claim C2, counterexample: With a single distinct episode id and
`val_fraction = 1/2 ∈ (0,1)`, the split cell does not raise: it silently
returns an empty training set and puts every example into validation. -/
theorem split_single_episode_counterexample :
    split id (1/2) [exC] = ([], [exC]) := by
  have hids : unique_episode_ids id [exC] = ["ep-c"] := by
    simp [unique_episode_ids, uniqueFirst, exC]
  have hidx : split_index id (1/2) [exC] = 0 := by
    rw [split_index, hids]
    rw [show ((([("ep-c" : String)] : List String).length : ℚ) * (1 - 1/2)) = 1/2 by
      norm_num]
    rw [pyInt_eq_zero (by norm_num) (by norm_num)]
    rfl
  have htr : train_episode_ids id (1/2) [exC] = [] := by
    rw [train_episode_ids, hidx, List.take_zero]
  have hvl : val_episode_ids id (1/2) [exC] = ["ep-c"] := by
    rw [val_episode_ids, hidx, hids, List.drop_zero]
  rw [split, train_df, val_df, htr, hvl]
  simp [exC]

/-- Claim C2, amended: For every input with exactly one distinct `episode_id`
and `val_fraction` in `(0,1)`, the split cell raises no error and silently
produces the degenerate partition `([], examples)`: the training set is empty
and every example lands in validation. -/
theorem split_single_episode_degenerate (shuffle : List String → List String)
    (val_fraction : ℚ) (examples : List ConvertedExample) (eid : String)
    (hne : examples ≠ [])
    (hall : ∀ e ∈ examples, e.episode_id = eid)
    (h0 : 0 < val_fraction) (h1 : val_fraction < 1)
    (hsh : shuffle [eid] = [eid]) :
    split shuffle val_fraction examples = ([], examples) := by
  have huniq : uniqueFirst (examples.map (·.episode_id)) = [eid] := by
    apply uniqueFirst_const
    · simpa using hne
    · intro y hy
      rcases List.mem_map.1 hy with ⟨e, he, rfl⟩
      exact hall e he
  have hids : unique_episode_ids shuffle examples = [eid] := by
    rw [unique_episode_ids, huniq, hsh]
  have hidx : split_index shuffle val_fraction examples = 0 := by
    rw [split_index, hids]
    have : ((([eid] : List String).length : ℚ) * (1 - val_fraction)) = 1 - val_fraction := by
      simp
    rw [this, pyInt_eq_zero (by linarith) (by linarith)]
    rfl
  have htr : train_episode_ids shuffle val_fraction examples = [] := by
    rw [train_episode_ids, hidx, List.take_zero]
  have hvl : val_episode_ids shuffle val_fraction examples = [eid] := by
    rw [val_episode_ids, hidx, hids, List.drop_zero]
  rw [split, train_df, val_df, htr, hvl]
  simp only [Prod.mk.injEq]
  constructor
  · rw [List.filter_eq_nil_iff]
    intro e _
    simp
  · rw [List.filter_eq_self]
    intro e he
    simp [hall e he]

/-- Witness for the amended C2 at a concrete input. -/
theorem split_single_episode_degenerate_witness :
    ([exD] : List ConvertedExample) ≠ []
    ∧ (∀ e ∈ [exD], e.episode_id = "ep-d")
    ∧ (0 : ℚ) < 1/2 ∧ (1 : ℚ)/2 < 1
    ∧ id ["ep-d"] = ["ep-d"]
    ∧ split id (1/2) [exD] = ([], [exD]) :=
  ⟨by simp,
   by intro e he; rw [List.mem_singleton] at he; subst he; rfl,
   by norm_num, by norm_num, rfl,
   split_single_episode_degenerate id (1/2) [exD] "ep-d"
     (by simp)
     (by intro e he; rw [List.mem_singleton] at he; subst he; rfl)
     (by norm_num) (by norm_num) rfl⟩

/-! ### Per-block rendering (claim C9) -/

/-- Claim C9: Per-block rendering follows the fixed mapping: `Text` (plain text)
and `RawText` blocks become text parts carrying the literal text, `Thought`
blocks become text parts wrapping the text in `<think>...</think>`, and the
record with `system="Be concise"`, one user message `[PlainText "Hi"]` and
output `[PlainText "Hello"]` converts to the turns
`[{role:user, parts:[{text:"Hi"}]}, {role:model, parts:[{text:"Hello"}]}]`
with `systemInstruction = {role:system, parts:[{text:"Be concise"}]}`. -/
theorem render_block_mapping :
    (∀ (loads : String → Option Js) (role s : String) (rest : List ContentBlock),
      renderBlocks loads role (ContentBlock.text s :: rest)
        = Except.map (Option.map fun ps => ProviderPart.text s :: ps)
            (renderBlocks loads role rest))
    ∧ (∀ (loads : String → Option Js) (role v : String) (rest : List ContentBlock),
      renderBlocks loads role (ContentBlock.rawText v :: rest)
        = Except.map (Option.map fun ps => ProviderPart.text v :: ps)
            (renderBlocks loads role rest))
    ∧ (∀ (loads : String → Option Js) (role s : String) (rest : List ContentBlock),
      renderBlocks loads role (ContentBlock.thought s :: rest)
        = Except.map (Option.map fun ps =>
            ProviderPart.text ("<think>" ++ s ++ "</think>") :: ps)
            (renderBlocks loads role rest))
    ∧ inference_to_google loadsDemo
        ⟨"ep-1", some "Be concise", [⟨"user", [ContentBlock.text "Hi"]⟩],
          [ContentBlock.text "Hello"]⟩
      = .ok (some ⟨[⟨"user", [ProviderPart.text "Hi"]⟩,
                    ⟨"model", [ProviderPart.text "Hello"]⟩],
                   some ⟨"system", [ProviderPart.text "Be concise"]⟩, "ep-1"⟩) := by
  refine ⟨?_, ?_, ?_, rfl⟩ <;>
    · intro loads role s rest
      cases h : renderBlocks loads role rest with
      | error e => simp [renderBlocks, h, Except.map]
      | ok o => cases o <;> simp [renderBlocks, h, Except.map]

/-! ### Tool-call argument normalization (claim C8) -/

/-- Claim C8: Tool-call argument normalization is form-independent: when
`loads s = some j`, rendering a `ToolCall` whose `raw_arguments` is the
JSON-encoded string `s` produces exactly the same `functionCall` part — and
the same whole result — as rendering the same `ToolCall` with the mapping `j`
supplied directly, in the message renderer and in the output renderer. -/
theorem toolcall_args_normalization (loads : String → Option Js)
    (name s : String) (j : Js) (rest : List ContentBlock)
    (hl : loads s = some j) :
    renderBlocks loads "assistant"
        (ContentBlock.toolCall name (RawArgs.argStr s) :: rest)
      = renderBlocks loads "assistant"
        (ContentBlock.toolCall name (RawArgs.argMap j) :: rest)
    ∧ render_chat_message loads "assistant"
        (ContentBlock.toolCall name (RawArgs.argStr s) :: rest)
      = render_chat_message loads "assistant"
        (ContentBlock.toolCall name (RawArgs.argMap j) :: rest)
    ∧ renderOutputBlocks loads
        (ContentBlock.toolCall name (RawArgs.argStr s) :: rest)
      = renderOutputBlocks loads
        (ContentBlock.toolCall name (RawArgs.argMap j) :: rest) := by
  have h1 : renderBlocks loads "assistant"
      (ContentBlock.toolCall name (RawArgs.argStr s) :: rest)
    = renderBlocks loads "assistant"
      (ContentBlock.toolCall name (RawArgs.argMap j) :: rest) := by
    simp [renderBlocks, hl]
  refine ⟨h1, ?_, ?_⟩
  · unfold render_chat_message
    rw [h1]
  · simp [renderOutputBlocks, hl]

/-- Witness for C8: the string `'{"x": 1}'` and the mapping `{"x": 1}`
normalize identically under the demo `loads`. -/
theorem toolcall_args_normalization_witness :
    loadsDemo "\x7b\"x\": 1\x7d" = some (Js.obj [("x", Js.num 1)])
    ∧ (renderBlocks loadsDemo "assistant"
        [ContentBlock.toolCall "get_temperature" (RawArgs.argStr "\x7b\"x\": 1\x7d")]
      = renderBlocks loadsDemo "assistant"
        [ContentBlock.toolCall "get_temperature" (RawArgs.argMap (Js.obj [("x", Js.num 1)]))]
    ∧ render_chat_message loadsDemo "assistant"
        [ContentBlock.toolCall "get_temperature" (RawArgs.argStr "\x7b\"x\": 1\x7d")]
      = render_chat_message loadsDemo "assistant"
        [ContentBlock.toolCall "get_temperature" (RawArgs.argMap (Js.obj [("x", Js.num 1)]))]
    ∧ renderOutputBlocks loadsDemo
        [ContentBlock.toolCall "get_temperature" (RawArgs.argStr "\x7b\"x\": 1\x7d")]
      = renderOutputBlocks loadsDemo
        [ContentBlock.toolCall "get_temperature" (RawArgs.argMap (Js.obj [("x", Js.num 1)]))]) :=
  ⟨rfl, toolcall_args_normalization loadsDemo "get_temperature" "\x7b\"x\": 1\x7d"
    (Js.obj [("x", Js.num 1)]) [] rfl⟩

/-! ### Supported blocks and valid records (claims C6, C4, C1) -/

/-- Whether `render_chat_message` has a rendering arm for the block when the
enclosing message has role `role` (the role conditions of the `ToolCall` and
`ToolResult` arms). -/
def blockSupported (role : String) : ContentBlock → Bool
  | .text _ => true
  | .rawText _ => true
  | .thought _ => true
  | .toolCall _ _ => role == "assistant"
  | .toolResult _ _ => role == "user"

/-- Whether the output loop of `inference_to_google` has a rendering arm for
the block (`Text`, `Thought`, `ToolCall` only). -/
def outputBlockSupported : ContentBlock → Bool
  | .text _ => true
  | .thought _ => true
  | .toolCall _ _ => true
  | _ => false

/-- Whether rendering the block can raise `json.JSONDecodeError`: only a
`ToolCall` whose `raw_arguments` is a string that `loads` rejects can. -/
def argsParse (loads : String → Option Js) : ContentBlock → Bool
  | .toolCall _ (.argStr s) => (loads s).isSome
  | _ => true

theorem renderBlocks_ok (loads : String → Option Js) (role : String)
    (blocks : List ContentBlock)
    (h : ∀ b ∈ blocks, blockSupported role b = true ∧ argsParse loads b = true) :
    ∃ ps, renderBlocks loads role blocks = .ok (some ps) := by
  induction blocks with
  | nil => exact ⟨[], rfl⟩
  | cons b rest ih =>
    obtain ⟨ps, hps⟩ := ih (fun x hx => h x (List.mem_cons_of_mem b hx))
    have hb := h b (List.mem_cons_self b rest)
    cases b with
    | text s => exact ⟨ProviderPart.text s :: ps, by simp [renderBlocks, hps]⟩
    | rawText v => exact ⟨ProviderPart.text v :: ps, by simp [renderBlocks, hps]⟩
    | thought s =>
      exact ⟨ProviderPart.text ("<think>" ++ s ++ "</think>") :: ps,
        by simp [renderBlocks, hps]⟩
    | toolCall name args =>
      have hrole : role = "assistant" := by
        have := hb.1
        simpa [blockSupported] using this
      subst hrole
      cases args with
      | argStr s =>
        obtain ⟨j, hj⟩ := Option.isSome_iff_exists.1 (by simpa [argsParse] using hb.2)
        exact ⟨ProviderPart.functionCall name j :: ps, by simp [renderBlocks, hj, hps]⟩
      | argMap j =>
        exact ⟨ProviderPart.functionCall name j :: ps, by simp [renderBlocks, hps]⟩
    | toolResult name result =>
      have hrole : role = "user" := by
        have := hb.1
        simpa [blockSupported] using this
      subst hrole
      exact ⟨ProviderPart.functionResponse name (Js.obj [("result", result)]) :: ps,
        by simp [renderBlocks, hps]⟩

theorem render_chat_message_ok (loads : String → Option Js) (role : String)
    (blocks : List ContentBlock) (r : String) (hr : role_map role = some r)
    (h : ∀ b ∈ blocks, blockSupported role b = true ∧ argsParse loads b = true) :
    ∃ ps, render_chat_message loads role blocks = .ok (some ⟨r, ps⟩) := by
  obtain ⟨ps, hps⟩ := renderBlocks_ok loads role blocks h
  exact ⟨ps, by simp [render_chat_message, hps, hr]⟩

theorem renderOutputBlocks_ok (loads : String → Option Js)
    (blocks : List ContentBlock)
    (h : ∀ b ∈ blocks, outputBlockSupported b = true ∧ argsParse loads b = true) :
    ∃ ps, renderOutputBlocks loads blocks = .ok (some ps) := by
  induction blocks with
  | nil => exact ⟨[], rfl⟩
  | cons b rest ih =>
    obtain ⟨ps, hps⟩ := ih (fun x hx => h x (List.mem_cons_of_mem b hx))
    have hb := h b (List.mem_cons_self b rest)
    cases b with
    | text s => exact ⟨ProviderPart.text s :: ps, by simp [renderOutputBlocks, hps]⟩
    | rawText v => simp [outputBlockSupported] at hb
    | thought s =>
      exact ⟨ProviderPart.text ("<think>" ++ s ++ "</think>") :: ps,
        by simp [renderOutputBlocks, hps]⟩
    | toolCall name args =>
      cases args with
      | argStr s =>
        obtain ⟨j, hj⟩ := Option.isSome_iff_exists.1 (by simpa [argsParse] using hb.2)
        exact ⟨ProviderPart.functionCall name j :: ps, by simp [renderOutputBlocks, hj, hps]⟩
      | argMap j =>
        exact ⟨ProviderPart.functionCall name j :: ps, by simp [renderOutputBlocks, hps]⟩
    | toolResult name result => simp [outputBlockSupported] at hb

theorem renderMessages_ok (loads : String → Option Js) (msgs : List Message)
    (hroles : ∀ m ∈ msgs, role_map m.role ≠ none)
    (hblocks : ∀ m ∈ msgs, ∀ b ∈ m.content,
      blockSupported m.role b = true ∧ argsParse loads b = true) :
    ∃ ts, renderMessages loads msgs = .ok (some ts) ∧ ts.length = msgs.length := by
  induction msgs with
  | nil => exact ⟨[], rfl, rfl⟩
  | cons m rest ih =>
    obtain ⟨ts, hts, hlen⟩ := ih
      (fun x hx => hroles x (List.mem_cons_of_mem m hx))
      (fun x hx => hblocks x (List.mem_cons_of_mem m hx))
    obtain ⟨r, hr⟩ := Option.ne_none_iff_exists'.1 (hroles m (List.mem_cons_self m rest))
    obtain ⟨ps, hps⟩ := render_chat_message_ok loads m.role m.content r hr
      (hblocks m (List.mem_cons_self m rest))
    refine ⟨⟨r, ps⟩ :: ts, ?_, by simp [hlen]⟩
    simp [renderMessages, hps, hts]

/-- Claim C6: For every valid record (mapped roles, only supported block
variants, parseable tool-call arguments), `convert` returns a result, the
pre-merge turn list has exactly `len(messages) + 1` turns, and its final turn
is the assistant's output turn appended after all input-message turns. -/
theorem convert_valid_record (loads : String → Option Js) (inf : InferenceRecord)
    (hroles : ∀ m ∈ inf.messages, role_map m.role ≠ none)
    (hblocks : ∀ m ∈ inf.messages, ∀ b ∈ m.content,
      blockSupported m.role b = true ∧ argsParse loads b = true)
    (hout : ∀ b ∈ inf.output,
      outputBlockSupported b = true ∧ argsParse loads b = true) :
    ∃ ts ps,
      renderMessages loads inf.messages = .ok (some ts)
      ∧ ts.length = inf.messages.length
      ∧ renderOutputBlocks loads inf.output = .ok (some ps)
      ∧ inference_pre_merge loads inf = .ok (some (ts ++ [⟨"model", ps⟩]))
      ∧ (ts ++ [(⟨"model", ps⟩ : Turn)]).length = inf.messages.length + 1
      ∧ ∃ ex, inference_to_google loads inf = .ok (some ex) := by
  obtain ⟨ts, hts, hlen⟩ := renderMessages_ok loads inf.messages hroles hblocks
  obtain ⟨ps, hps⟩ := renderOutputBlocks_ok loads inf.output hout
  have hpre : inference_pre_merge loads inf = .ok (some (ts ++ [⟨"model", ps⟩])) := by
    simp [inference_pre_merge, hts, hps]
  refine ⟨ts, ps, hts, hlen, hps, hpre, by simp [hlen], ?_⟩
  exact ⟨⟨merge_messages (ts ++ [⟨"model", ps⟩]),
    (if truthyStr inf.system then
      some ⟨"system", [ProviderPart.text (inf.system.getD "")]⟩
    else none), inf.episode_id⟩, by simp [inference_to_google, hpre]⟩

/-- Witness for C6: a record with a user text message, an assistant tool call
(mapping-form arguments) and a text output. -/
theorem convert_valid_record_witness :
    (∀ m ∈ ([⟨"user", [ContentBlock.text "hi"]⟩,
        ⟨"assistant", [ContentBlock.toolCall "f" (RawArgs.argMap (Js.obj []))]⟩] :
        List Message), role_map m.role ≠ none)
    ∧ (∀ m ∈ ([⟨"user", [ContentBlock.text "hi"]⟩,
        ⟨"assistant", [ContentBlock.toolCall "f" (RawArgs.argMap (Js.obj []))]⟩] :
        List Message), ∀ b ∈ m.content,
        blockSupported m.role b = true ∧ argsParse loadsDemo b = true)
    ∧ (∀ b ∈ ([ContentBlock.text "ok"] : List ContentBlock),
        outputBlockSupported b = true ∧ argsParse loadsDemo b = true)
    ∧ ∃ ts ps,
      renderMessages loadsDemo [⟨"user", [ContentBlock.text "hi"]⟩,
          ⟨"assistant", [ContentBlock.toolCall "f" (RawArgs.argMap (Js.obj []))]⟩]
        = .ok (some ts)
      ∧ ts.length = 2
      ∧ renderOutputBlocks loadsDemo [ContentBlock.text "ok"] = .ok (some ps)
      ∧ inference_pre_merge loadsDemo
          ⟨"ep-6", some "s", [⟨"user", [ContentBlock.text "hi"]⟩,
            ⟨"assistant", [ContentBlock.toolCall "f" (RawArgs.argMap (Js.obj []))]⟩],
            [ContentBlock.text "ok"]⟩ = .ok (some (ts ++ [⟨"model", ps⟩]))
      ∧ (ts ++ [(⟨"model", ps⟩ : Turn)]).length = 2 + 1
      ∧ ∃ ex, inference_to_google loadsDemo
          ⟨"ep-6", some "s", [⟨"user", [ContentBlock.text "hi"]⟩,
            ⟨"assistant", [ContentBlock.toolCall "f" (RawArgs.argMap (Js.obj []))]⟩],
            [ContentBlock.text "ok"]⟩ = .ok (some ex) :=
  ⟨by decide, by decide, by decide,
   convert_valid_record loadsDemo
     ⟨"ep-6", some "s", [⟨"user", [ContentBlock.text "hi"]⟩,
       ⟨"assistant", [ContentBlock.toolCall "f" (RawArgs.argMap (Js.obj []))]⟩],
       [ContentBlock.text "ok"]⟩
     (by decide) (by decide) (by decide)⟩

theorem renderBlocks_unsupported (loads : String → Option Js) (role : String)
    (blocks : List ContentBlock)
    (hp : ∀ b ∈ blocks, argsParse loads b = true)
    (hbad : ∃ b ∈ blocks, blockSupported role b = false) :
    renderBlocks loads role blocks = .ok none := by
  induction blocks with
  | nil => simp at hbad
  | cons b rest ih =>
    by_cases hbb : blockSupported role b = false
    · cases b with
      | text s => simp [blockSupported] at hbb
      | rawText v => simp [blockSupported] at hbb
      | thought s => simp [blockSupported] at hbb
      | toolCall name args =>
        have hrole : ¬role = "assistant" := by
          simpa [blockSupported] using hbb
        simp [renderBlocks, hrole]
      | toolResult name result =>
        have hrole : ¬role = "user" := by
          simpa [blockSupported] using hbb
        simp [renderBlocks, hrole]
    · have hsup : blockSupported role b = true := by
        revert hbb
        cases blockSupported role b <;> simp
      have hbad' : ∃ x ∈ rest, blockSupported role x = false := by
        rcases hbad with ⟨x, hx, hxf⟩
        rcases List.mem_cons.1 hx with rfl | hx
        · exact absurd hxf hbb
        · exact ⟨x, hx, hxf⟩
      have hnone := ih (fun x hx => hp x (List.mem_cons_of_mem b hx)) hbad'
      have hb := hp b (List.mem_cons_self b rest)
      cases b with
      | text s => simp [renderBlocks, hnone]
      | rawText v => simp [renderBlocks, hnone]
      | thought s => simp [renderBlocks, hnone]
      | toolCall name args =>
        have hrole : role = "assistant" := by
          simpa [blockSupported] using hsup
        subst hrole
        cases args with
        | argStr s =>
          obtain ⟨j, hj⟩ := Option.isSome_iff_exists.1 (by simpa [argsParse] using hb)
          simp [renderBlocks, hj, hnone]
        | argMap j => simp [renderBlocks, hnone]
      | toolResult name result =>
        have hrole : role = "user" := by
          simpa [blockSupported] using hsup
        subst hrole
        simp [renderBlocks, hnone]

theorem renderOutputBlocks_unsupported (loads : String → Option Js)
    (blocks : List ContentBlock)
    (hp : ∀ b ∈ blocks, argsParse loads b = true)
    (hbad : ∃ b ∈ blocks, outputBlockSupported b = false) :
    renderOutputBlocks loads blocks = .ok none := by
  induction blocks with
  | nil => simp at hbad
  | cons b rest ih =>
    by_cases hbb : outputBlockSupported b = false
    · cases b with
      | text s => simp [outputBlockSupported] at hbb
      | thought s => simp [outputBlockSupported] at hbb
      | toolCall name args => simp [outputBlockSupported] at hbb
      | rawText v => simp [renderOutputBlocks]
      | toolResult name result => simp [renderOutputBlocks]
    · have hbad' : ∃ x ∈ rest, outputBlockSupported x = false := by
        rcases hbad with ⟨x, hx, hxf⟩
        rcases List.mem_cons.1 hx with rfl | hx
        · exact absurd hxf hbb
        · exact ⟨x, hx, hxf⟩
      have hnone := ih (fun x hx => hp x (List.mem_cons_of_mem b hx)) hbad'
      have hb := hp b (List.mem_cons_self b rest)
      cases b with
      | text s => simp [renderOutputBlocks, hnone]
      | rawText v => simp [renderOutputBlocks]
      | thought s => simp [renderOutputBlocks, hnone]
      | toolCall name args =>
        cases args with
        | argStr s =>
          obtain ⟨j, hj⟩ := Option.isSome_iff_exists.1 (by simpa [argsParse] using hb)
          simp [renderOutputBlocks, hj, hnone]
        | argMap j => simp [renderOutputBlocks, hnone]
      | toolResult name result => simp [renderOutputBlocks]

theorem renderMessages_unsupported (loads : String → Option Js)
    (msgs : List Message)
    (hroles : ∀ m ∈ msgs, role_map m.role ≠ none)
    (hp : ∀ m ∈ msgs, ∀ b ∈ m.content, argsParse loads b = true)
    (hbad : ∃ m ∈ msgs, ∃ b ∈ m.content, blockSupported m.role b = false) :
    renderMessages loads msgs = .ok none := by
  induction msgs with
  | nil => simp at hbad
  | cons m rest ih =>
    by_cases hm : ∃ b ∈ m.content, blockSupported m.role b = false
    · have hnone := renderBlocks_unsupported loads m.role m.content
        (hp m (List.mem_cons_self m rest)) hm
      simp [renderMessages, render_chat_message, hnone]
    · have hall : ∀ b ∈ m.content,
          blockSupported m.role b = true ∧ argsParse loads b = true := by
        intro b hbmem
        refine ⟨?_, hp m (List.mem_cons_self m rest) b hbmem⟩
        by_contra hc
        exact hm ⟨b, hbmem, by revert hc; cases blockSupported m.role b <;> simp⟩
      obtain ⟨r, hr⟩ := Option.ne_none_iff_exists'.1 (hroles m (List.mem_cons_self m rest))
      obtain ⟨ps, hps⟩ := render_chat_message_ok loads m.role m.content r hr hall
      have hbad' : ∃ x ∈ rest, ∃ b ∈ x.content, blockSupported x.role b = false := by
        rcases hbad with ⟨x, hx, hxf⟩
        rcases List.mem_cons.1 hx with rfl | hx
        · exact absurd hxf hm
        · exact ⟨x, hx, hxf⟩
      have hnone := ih (fun x hx => hroles x (List.mem_cons_of_mem m hx))
        (fun x hx => hp x (List.mem_cons_of_mem m hx)) hbad'
      simp [renderMessages, hps, hnone]

theorem google_payloads_skip (loads : String → Option Js)
    (inf : InferenceRecord) (hskip : inference_to_google loads inf = .ok none) :
    ∀ pre post, google_payloads loads (pre ++ inf :: post)
      = google_payloads loads (pre ++ post) := by
  intro pre post
  induction pre with
  | nil => simp [google_payloads, hskip]
  | cons p pre ih =>
    cases hpv : inference_to_google loads p with
    | error e => simp [google_payloads, hpv]
    | ok o =>
      cases o with
      | none => simpa [google_payloads, hpv] using ih
      | some x => simp [google_payloads, hpv, ih]

/-- Claim C4: For every record containing a block variant not supported for its
message role (e.g. a `ToolResult` on an assistant message, a `ToolCall` on a
user message) or an output block outside the supported output variants —
provided rendering raises no exception on the way (mapped roles, parseable
arguments) — `convert` aborts conversion of that record and returns no
result, and the record's skip is not fatal for the batch: the batch result is
the same as if the record were absent. -/
theorem convert_unsupported_record_skipped (loads : String → Option Js)
    (inf : InferenceRecord)
    (hroles : ∀ m ∈ inf.messages, role_map m.role ≠ none)
    (hp : ∀ m ∈ inf.messages, ∀ b ∈ m.content, argsParse loads b = true)
    (hpout : ∀ b ∈ inf.output, argsParse loads b = true)
    (hbad : (∃ m ∈ inf.messages, ∃ b ∈ m.content, blockSupported m.role b = false)
      ∨ ∃ b ∈ inf.output, outputBlockSupported b = false) :
    inference_to_google loads inf = .ok none
    ∧ ∀ pre post, google_payloads loads (pre ++ inf :: post)
        = google_payloads loads (pre ++ post) := by
  have hnone : inference_to_google loads inf = .ok none := by
    rcases hbad with hbadm | hbado
    · have h1 := renderMessages_unsupported loads inf.messages hroles hp hbadm
      simp [inference_to_google, inference_pre_merge, h1]
    · by_cases hm : ∃ m ∈ inf.messages, ∃ b ∈ m.content, blockSupported m.role b = false
      · have h1 := renderMessages_unsupported loads inf.messages hroles hp hm
        simp [inference_to_google, inference_pre_merge, h1]
      · have hall : ∀ m ∈ inf.messages, ∀ b ∈ m.content,
            blockSupported m.role b = true ∧ argsParse loads b = true := by
          intro m hmm b hbmem
          refine ⟨?_, hp m hmm b hbmem⟩
          by_contra hc
          exact hm ⟨m, hmm, b, hbmem, by revert hc; cases blockSupported m.role b <;> simp⟩
        obtain ⟨ts, hts, -⟩ := renderMessages_ok loads inf.messages hroles hall
        have h2 := renderOutputBlocks_unsupported loads inf.output hpout hbado
        simp [inference_to_google, inference_pre_merge, hts, h2]
  exact ⟨hnone, google_payloads_skip loads inf hnone⟩

/-- Witness for C4: an assistant message carrying a `ToolResult` block — the
record is skipped and a one-record batch behaves as an empty batch. -/
theorem convert_unsupported_record_skipped_witness :
    (∀ m ∈ ([⟨"assistant", [ContentBlock.toolResult "t" Js.null]⟩] : List Message),
      role_map m.role ≠ none)
    ∧ (∀ m ∈ ([⟨"assistant", [ContentBlock.toolResult "t" Js.null]⟩] : List Message),
      ∀ b ∈ m.content, argsParse loadsDemo b = true)
    ∧ (∀ b ∈ ([ContentBlock.text "out"] : List ContentBlock),
      argsParse loadsDemo b = true)
    ∧ ((∃ m ∈ ([⟨"assistant", [ContentBlock.toolResult "t" Js.null]⟩] : List Message),
        ∃ b ∈ m.content, blockSupported m.role b = false)
      ∨ ∃ b ∈ ([ContentBlock.text "out"] : List ContentBlock),
        outputBlockSupported b = false)
    ∧ inference_to_google loadsDemo
        ⟨"ep-4", none, [⟨"assistant", [ContentBlock.toolResult "t" Js.null]⟩],
          [ContentBlock.text "out"]⟩ = .ok none
    ∧ google_payloads loadsDemo
        ([] ++ ⟨"ep-4", none, [⟨"assistant", [ContentBlock.toolResult "t" Js.null]⟩],
          [ContentBlock.text "out"]⟩ :: [])
      = google_payloads loadsDemo ([] ++ []) :=
  ⟨by decide, by decide, by decide, by decide,
   (convert_unsupported_record_skipped loadsDemo
     ⟨"ep-4", none, [⟨"assistant", [ContentBlock.toolResult "t" Js.null]⟩],
       [ContentBlock.text "out"]⟩
     (by decide) (by decide) (by decide) (by decide)).1,
   (convert_unsupported_record_skipped loadsDemo
     ⟨"ep-4", none, [⟨"assistant", [ContentBlock.toolResult "t" Js.null]⟩],
       [ContentBlock.text "out"]⟩
     (by decide) (by decide) (by decide) (by decide)).2 [] []⟩

theorem google_payloads_error (loads : String → Option Js)
    (inf : InferenceRecord) (e : ConvError)
    (herr : inference_to_google loads inf = .error e) :
    ∀ pre post, (∀ p ∈ pre, ∃ o, inference_to_google loads p = .ok o) →
      google_payloads loads (pre ++ inf :: post) = .error e := by
  intro pre post hpre
  induction pre with
  | nil => simp [google_payloads, herr]
  | cons p rest ih =>
    obtain ⟨o, ho⟩ := hpre p (List.mem_cons_self p rest)
    have ih' := ih (fun q hq => hpre q (List.mem_cons_of_mem p hq))
    cases o with
    | none => simpa [google_payloads, ho] using ih'
    | some x => simp [google_payloads, ho, ih']

/-- A record whose first message is an assistant message beginning with a
`ToolCall` carrying the unparseable argument string "oops". -/
def badToolCallRecord : InferenceRecord :=
  ⟨"ep-bad", none,
   [⟨"assistant", [ContentBlock.toolCall "f" (RawArgs.argStr "oops")]⟩],
   [ContentBlock.text "out"]⟩

/-- A well-formed record converted after the bad one in the demo batch. -/
def goodRecord : InferenceRecord :=
  ⟨"ep-good", none, [⟨"user", [ContentBlock.text "hi"]⟩], [ContentBlock.text "ok"]⟩

/-- Claim C1, counterexample: A `ToolCall` whose stored string arguments fail
to parse does not become a per-record skip: `convert` raises
`json.JSONDecodeError`, and a batch holding that record followed by a
perfectly good record aborts with the error instead of continuing — the good
record is never converted. -/
theorem toolcall_parse_failure_counterexample :
    inference_to_google loadsDemo badToolCallRecord = .error .jsonDecodeError
    ∧ google_payloads loadsDemo [badToolCallRecord, goodRecord]
        = .error .jsonDecodeError := ⟨rfl, rfl⟩

/-- Claim C1, amended: For every record whose first message is an assistant
message starting with a `ToolCall` whose string arguments fail to parse,
`convert` raises `json.JSONDecodeError` (it does not return a skipped/empty
result), and the uncaught error aborts the whole batch whenever the records
before it convert without raising: conversion of the remaining records does
not continue. -/
theorem toolcall_parse_failure_aborts (loads : String → Option Js)
    (name s ep : String) (sys : Option String)
    (restBlocks : List ContentBlock) (restMsgs : List Message)
    (out : List ContentBlock)
    (hfail : loads s = none) :
    inference_to_google loads
      ⟨ep, sys, ⟨"assistant", ContentBlock.toolCall name (RawArgs.argStr s)
        :: restBlocks⟩ :: restMsgs, out⟩ = .error .jsonDecodeError
    ∧ ∀ pre post, (∀ p ∈ pre, ∃ o, inference_to_google loads p = .ok o) →
      google_payloads loads (pre ++
        (⟨ep, sys, ⟨"assistant", ContentBlock.toolCall name (RawArgs.argStr s)
          :: restBlocks⟩ :: restMsgs, out⟩ : InferenceRecord) :: post)
        = .error .jsonDecodeError := by
  have herr : inference_to_google loads
      ⟨ep, sys, ⟨"assistant", ContentBlock.toolCall name (RawArgs.argStr s)
        :: restBlocks⟩ :: restMsgs, out⟩ = .error .jsonDecodeError := by
    simp [inference_to_google, inference_pre_merge, renderMessages,
      render_chat_message, renderBlocks, hfail]
  exact ⟨herr, fun pre post hpre =>
    google_payloads_error loads _ _ herr pre post hpre⟩

/-- Witness for the amended C1 at a concrete unparseable tool call. -/
theorem toolcall_parse_failure_aborts_witness :
    loadsDemo "not json" = none
    ∧ (inference_to_google loadsDemo
        ⟨"ep-w1", none, [⟨"assistant",
          [ContentBlock.toolCall "g" (RawArgs.argStr "not json")]⟩],
          [ContentBlock.text "o"]⟩ = .error .jsonDecodeError
    ∧ ∀ pre post, (∀ p ∈ pre, ∃ o, inference_to_google loadsDemo p = .ok o) →
      google_payloads loadsDemo (pre ++
        (⟨"ep-w1", none, [⟨"assistant",
          [ContentBlock.toolCall "g" (RawArgs.argStr "not json")]⟩],
          [ContentBlock.text "o"]⟩ : InferenceRecord) :: post)
        = .error .jsonDecodeError) :=
  ⟨rfl, toolcall_parse_failure_aborts loadsDemo "g" "not json" "ep-w1" none
    [] [] [ContentBlock.text "o"] rfl⟩

/-- Claim C3: `upload_dataset_to_gcp` evaluated at its failing input: a
successful fresh upload stores the dataset but returns `None` — not the
remote URI its `-> str` annotation promises. The error behaviour does match
the claim: with the destination already present the upload fails with the
existence precondition (never overwriting), and a transport failure surfaces
as a transport error, with no internal retry in either case. -/
theorem upload_dataset_returns_none :
    upload_dataset_to_gcp true [] [exA] "train_0.jsonl"
      = .ok ([("train_0.jsonl", [exA])], none)
    ∧ uploadIfAbsent true [("train_0.jsonl", [exA])] "train_0.jsonl" [exB]
      = .error .preconditionFailed
    ∧ upload_dataset_to_gcp true [("train_0.jsonl", [exA])] [exB] "train_0.jsonl"
      = .error .preconditionFailed
    ∧ upload_dataset_to_gcp false [] [exB] "val_0.jsonl"
      = .error .transportError :=
  ⟨rfl, rfl, rfl, rfl⟩
